import Mathlib

/-!
Verification development for the `htmlwrite` streaming HTML writer
(`htmlwrite.py`).  The Python source is shallowly embedded below:
pure helpers become Lean functions, the mutable `Writer` object becomes
explicit state passing over `WState`, and raised exceptions become an
`Option Err` result component.  The recursive `Writer.write` is given an
explicit fuel parameter so that every definition is structurally
recursive and kernel-reducible; Python's recursion always terminates on
the finite argument structure, and theorems quantify over sufficient fuel.
-/

/-- Python string repetition `u * n` (as in `self.indent * indent_level`). -/
def strRepeat (u : String) : Nat → String
  | 0 => ""
  | n + 1 => u ++ strRepeat u n

/-- Python `sep.join(items)` (as in `style_join` / `class_join` / `args_join`). -/
def joinSep (sep : String) : List String → String
  | [] => ""
  | [x] => x
  | x :: y :: rest => x ++ sep ++ joinSep sep (y :: rest)

/-- Character-level escaping table of `markupsafe.escape`:
`&` `<` `>` `"` and the single quote (code point 39). -/
def escChar (c : Char) : List Char :=
  if c = '&' then "&amp;".data
  else if c = '<' then "&lt;".data
  else if c = '>' then "&gt;".data
  else if c = '"' then "&#34;".data
  else if c = Char.ofNat 39 then "&#39;".data
  else [c]

/-- `markupsafe.escape` on plain strings. -/
def escape (s : String) : String :=
  String.mk (s.data.map escChar).flatten

/-- `optimize_attr_name`: strip trailing underscores, then replace every
remaining underscore with a hyphen. -/
def optimize_attr_name (name : String) : String :=
  String.mk
    (((name.data.reverse.dropWhile (fun c => c = '_')).reverse).map
      (fun c => if c = '_' then '-' else c))

/-- The `boolean_attrs` set. -/
def booleanAttrs : List String :=
  ["checked", "defer", "disabled", "multiple", "readonly", "selected"]

/-- The `void_tags` set. -/
def voidTags : List String :=
  ["area", "base", "basefont", "br", "col", "frame", "hr", "img", "input",
   "isindex", "link", "meta", "param"]

/-- A keyword-attribute value: Python passes booleans (for boolean
attributes) or strings. -/
inductive AttrVal where
  | b (val : Bool)
  | s (val : String)

/-- Python truthiness of an attribute value (the `if v` filter). -/
def AttrVal.truthy : AttrVal → Bool
  | .b v => v
  | .s v => !(v.isEmpty)

/-- Python `str()` of an attribute value, as seen by `escape`. -/
def AttrVal.toStr : AttrVal → String
  | .b true => "True"
  | .b false => "False"
  | .s v => v

/-- A `class_` argument: a plain string or a sequence of strings
(`Tag.__init__` freezes any non-string iterable to a tuple). -/
inductive ClassVal where
  | str (s : String)
  | seq (l : List String)

/-- The class normalization in `_start_tag`: a non-string iterable is
space-joined, a string passes through. -/
def classValStr : ClassVal → String
  | .str s => s
  | .seq l => joinSep " " l

/-- `style_item = '{}: {};'.format` (braces are the format slots). -/
def styleItem (k v : String) : String := k ++ ": " ++ v ++ ";"

/-- `args_item = '{}="{}"'.format`. -/
def argsItem (k v : String) : String := k ++ "=\"" ++ v ++ "\""

/-- `tag_end = '</{}>'.format`. -/
def tagEndStr (n : String) : String := "</" ++ n ++ ">"

/-- `k.startswith('s_')` on an attribute key. -/
def startsWithS (k : String) : Bool :=
  match k.data with
  | c1 :: c2 :: _ => c1 == 's' && c2 == '_'
  | _ => false

/-- Python `k[2:]`. -/
def dropTwo (k : String) : String := String.mk (k.data.drop 2)

/-- `_start_tag(tag_name, style, class_, args)`: partition the args on the
`s_` prefix, normalize attribute names, build the style string from the
explicit style source followed by the shorthand entries, put `class` and
`style` first, render boolean attributes bare, drop falsy values.
The `lru_cache` decoration is pure memoization and is not modeled. -/
def startTagStr (tag_name : String) (style : List (String × String))
    (class_ : ClassVal) (args : List (String × AttrVal)) : String :=
  let tag_args := (args.filter (fun kv => !(startsWithS kv.1))).map
    (fun kv => (optimize_attr_name kv.1, kv.2))
  let style_from_args := (args.filter (fun kv => startsWithS kv.1)).map
    (fun kv => (dropTwo kv.1, kv.2.toStr))
  let styleStr := joinSep " " ((style ++ style_from_args).map
    (fun kv => styleItem (optimize_attr_name kv.1) (escape kv.2)))
  let classStr := classValStr class_
  let all_args : List (String × AttrVal) :=
    ("class", AttrVal.s classStr) :: ("style", AttrVal.s styleStr) :: tag_args
  let args_html := joinSep " " ((all_args.filter (fun kv => kv.2.truthy)).map
    (fun kv => if booleanAttrs.contains kv.1 then kv.1
               else argsItem kv.1 (escape kv.2.toStr)))
  if args_html.isEmpty then "<" ++ tag_name ++ ">"
  else "<" ++ tag_name ++ " " ++ args_html ++ ">"

mutual
/-- The `Tag` object after `__init__` has frozen its fields: name, the
deprecated `c` contents, the style pairs, the class value and the keyword
attributes (already sorted by `__init__`, see `mkTag`). -/
inductive Tag : Type where
  | mk (tag_name : String) (contents : Option Value)
      (style : List (String × String)) (class_ : ClassVal)
      (args : List (String × AttrVal)) : Tag

/-- A Python value handed to `Writer.write`: a plain string, a `Tag`,
`None`, or a list/tuple of further values. -/
inductive Value : Type where
  | str (s : String) : Value
  | tag (t : Tag) : Value
  | pyNone : Value
  | list (l : List Value) : Value
end

def Tag.tag_name : Tag → String
  | .mk n _ _ _ _ => n

def Tag.contents : Tag → Option Value
  | .mk _ c _ _ _ => c

def Tag.style : Tag → List (String × String)
  | .mk _ _ st _ _ => st

def Tag.class_ : Tag → ClassVal
  | .mk _ _ _ cl _ => cl

def Tag.args : Tag → List (String × AttrVal)
  | .mk _ _ _ _ a => a

/-- Python `<` on strings: lexicographic comparison of code points. -/
def charListLt : List Char → List Char → Bool
  | [], [] => false
  | [], _ :: _ => true
  | _ :: _, [] => false
  | a :: as, b :: bs =>
    if a.toNat < b.toNat then true
    else if b.toNat < a.toNat then false
    else charListLt as bs

/-- Python `<` on strings, on the `String` wrapper. -/
def strLt (a b : String) : Bool := charListLt a.data b.data

/-- Insert one keyword argument into a key-sorted list (helper for the
`sorted(args.items())` of `Tag.__init__`; keyword keys are unique, so
only the key ordering matters). -/
def insertAttr (p : String × AttrVal) :
    List (String × AttrVal) → List (String × AttrVal)
  | [] => [p]
  | q :: rest => if strLt p.1 q.1 then p :: q :: rest else q :: insertAttr p rest

/-- `sorted(args.items())` by key (Python sorts strings by code points). -/
def sortAttrs : List (String × AttrVal) → List (String × AttrVal)
  | [] => []
  | p :: rest => insertAttr p (sortAttrs rest)

/-- `Tag.__init__`: store the fields, sorting the keyword attributes by
their (original) keys.  The style/class freezing to tuples is implicit in
the Lean field types; the deprecation warning on `c` is a diagnostic only. -/
def mkTag (tag_name : String) (contents : Option Value)
    (style : List (String × String)) (class_ : ClassVal)
    (args : List (String × AttrVal)) : Tag :=
  Tag.mk tag_name contents style class_ (sortAttrs args)

/-- `Tag.start_tag`. -/
def Tag.start_tag (t : Tag) : String :=
  startTagStr t.tag_name t.style t.class_ t.args

/-- `Tag.end_tag`: `</name>`, or the empty markup for void tags. -/
def Tag.end_tag (t : Tag) : String :=
  if voidTags.contains t.tag_name then "" else tagEndStr t.tag_name

/-- `Tag.empty_tag`: HTML5 forbids self-closing syntax for non-void tags. -/
def Tag.empty_tag (t : Tag) : String :=
  if !(voidTags.contains t.tag_name) then t.start_tag ++ t.end_tag
  else t.start_tag

/-- Python truthiness of a content value (the `if sub_item.contents:` test). -/
def Value.truthy : Value → Bool
  | .str s => !(s.isEmpty)
  | .tag _ => true
  | .pyNone => false
  | .list l => !(l.isEmpty)

mutual
/-- Python `str()`/`repr()` of a value, reached only when a list appears
directly as a content sub-item and is passed to `escape`.  The `repr` of a
`Tag` object is address-dependent in CPython and is modeled by a fixed
placeholder; no claim exercises this corner. -/
def reprValue : Value → String
  | .str s => String.singleton (Char.ofNat 39) ++ s ++ String.singleton (Char.ofNat 39)
  | .tag _ => "<Tag object>"
  | .pyNone => "None"
  | .list l => "[" ++ reprList l ++ "]"

/-- Comma-joined `repr` of list elements, as in Python `str(list)`. -/
def reprList : List Value → String
  | [] => ""
  | [v] => reprValue v
  | v :: w :: rest => reprValue v ++ ", " ++ reprList (w :: rest)
end

/-- One `WriterStackItem` namedtuple frame; the root frame carries no tag. -/
structure Frame where
  tag : Option Tag
  indent_level : Nat
  contents_same_line : Bool
  next_child_same_line : Bool

/-- The mutable state of a `Writer`: the sink's accumulated content
(`out_file` is an append-only character sink), the frame stack (head is
the top, mirroring `deque` append/pop on the right), the indent unit and
the two line-position flags set by `__init__`. -/
structure WState where
  out : String
  stack : List Frame
  indent : String
  current_line_indent_written : Bool
  last_write_is_tag : Bool

/-- The exceptions the embedded code can signal.  `fuelOut` is an artifact
of the explicit fuel and corresponds to no Python behavior. -/
inductive Err where
  | valueError
  | indexError
  | attributeError
  | fuelOut
deriving DecidableEq

/-- `self.root_stack = writer_stack_item(None, 0, False, False)`. -/
def root_stack : Frame := { tag := Option.none, indent_level := 0,
                            contents_same_line := false, next_child_same_line := false }

/-- `Writer.get_current_stack`: top of the stack, or the root frame. -/
def getCurrentStack (s : WState) : Frame := s.stack.headD root_stack

/-- `self.out_file.write(t)` on the append-only sink. -/
def emit (s : WState) (t : String) : WState := { s with out := s.out ++ t }

/-- `Writer.__init__(out_file, indent='  ')` over an empty sink. -/
def mkWriter (indent : String) : WState :=
  { out := "", stack := [], indent := indent,
    current_line_indent_written := false, last_write_is_tag := true }

/-- A fresh writer with the default two-space indent unit. -/
def freshWriter : WState := mkWriter "  "

/-- `Writer._write_start_whitespace(indent_level, is_tag, indent)`. -/
def write_start_whitespace (indent_level : Nat) (is_tag : Bool) (indent : Bool)
    (s : WState) : WState :=
  if !s.current_line_indent_written then
    let lvl := if indent then indent_level else 0
    let s1 := emit s (strRepeat s.indent lvl)
    { s1 with current_line_indent_written := true, last_write_is_tag := is_tag }
  else if !is_tag && !s.last_write_is_tag then
    { emit s " " with last_write_is_tag := is_tag }
  else
    { s with last_write_is_tag := is_tag }

/-- `Writer._write_end_whitespace(same_line)`. -/
def write_end_whitespace (same_line : Bool) (s : WState) : WState :=
  if !same_line then { emit s "\n" with current_line_indent_written := false }
  else s

/-- `Writer.write_start_tag(tag, next_child_same_line, contents_same_line, indent)`:
push the new frame (indent level bumps unless the child stays on the same
line, the contents-same-line flag is OR'd with the parent's), then emit
leading whitespace, the start tag and the trailing whitespace. -/
def write_start_tag (tag : Tag) (next_child_same_line contents_same_line : Bool)
    (indent : Bool) (s : WState) : WState :=
  let prev := getCurrentStack s
  let new_frame : Frame :=
    { tag := some tag,
      indent_level := if indent && !next_child_same_line then prev.indent_level + 1
                      else prev.indent_level,
      contents_same_line := prev.contents_same_line || contents_same_line,
      next_child_same_line := next_child_same_line }
  let s1 := { s with stack := new_frame :: s.stack }
  let s2 := write_start_whitespace prev.indent_level true indent s1
  let s3 := emit s2 tag.start_tag
  write_end_whitespace
    (prev.contents_same_line || contents_same_line || next_child_same_line) s3

/-- `Writer.write_end_tag(indent, next_same_line)`: `deque.pop` raises
`IndexError` on an empty stack before anything is written; otherwise the
popped frame's end tag is emitted between the whitespace policies.
A root frame inside the deque would fault on `None.end_tag`
(`attributeError`); `Writer` never stores the root frame in the deque. -/
def write_end_tag (indent next_same_line : Bool) (s : WState) : WState × Option Err :=
  match s.stack with
  | [] => (s, some Err.indexError)
  | popped :: rest =>
    let s1 := { s with stack := rest }
    let cur := getCurrentStack s1
    let s2 := write_start_whitespace cur.indent_level true indent s1
    let s3 := { s2 with last_write_is_tag := true }
    match popped.tag with
    | some t =>
      let s4 := emit s3 t.end_tag
      (write_end_whitespace
        (next_same_line || cur.contents_same_line || cur.next_child_same_line) s4,
       Option.none)
    | Option.none => (s3, some Err.attributeError)

/-- The front loop of `Writer.write` over `tag_items`: each non-final item
must be a `Tag` without contents (`ValueError` otherwise, raised before the
offending item writes anything), and is opened with
`next_child_same_line = contents_same_line if last else tags_same_line`. -/
def writeTags (tag_items : List Value) (i len_items : Nat)
    (csl tsl it : Bool) (s : WState) : WState × Option Err :=
  match tag_items with
  | [] => (s, Option.none)
  | v :: rest =>
    match v with
    | Value.tag t =>
      match t.contents with
      | some _ => (s, some Err.valueError)
      | Option.none =>
        let s1 := write_start_tag t (if i + 2 == len_items then csl else tsl) false it s
        writeTags rest (i + 1) len_items csl tsl it s1
    | _ => (s, some Err.valueError)

/-- The closing loop of `Writer.write` over `reversed(tag_items)`:
`k` end tags, where only the final pop (loop index `len_items - 2`) may
keep the caller's `next_same_line`. -/
def writeEnds (k : Nat) (i len_items : Nat) (nsl it : Bool)
    (s : WState) : WState × Option Err :=
  match k with
  | 0 => (s, Option.none)
  | k + 1 =>
    match write_end_tag it (nsl && (i + 2 == len_items)) s with
    | (s1, some e) => (s1, some e)
    | (s1, Option.none) => writeEnds k (i + 1) len_items nsl it s1

mutual
/-- `Writer.write(*items, contents_same_line=True, tags_same_line=True,
next_same_line=False, indent=True, indent_tags=True, indent_contents=True)`:
override the same-line flags from the current frame, open the chained
non-final tags, write the (wrapped) last item's sub-items, then close the
chained tags in reverse.  An empty `items` faults on `items[-1]`
(`indexError`). -/
def write (fuel : Nat) (items : List Value)
    (contents_same_line tags_same_line next_same_line indent indent_tags
     indent_contents : Bool) (s : WState) : WState × Option Err :=
  match fuel with
  | 0 => (s, some Err.fuelOut)
  | fuel + 1 =>
    let cur := getCurrentStack s
    let csl := contents_same_line || cur.contents_same_line
    let tsl := tags_same_line || cur.contents_same_line
    let it := indent_tags && indent
    let ic := indent_contents && indent
    match items with
    | [] => (s, some Err.indexError)
    | first :: restItems =>
      let len_items := (first :: restItems).length
      let tag_items := (first :: restItems).dropLast
      let last_item := (first :: restItems).getLastD Value.pyNone
      match writeTags tag_items 0 len_items csl tsl it s with
      | (s1, some e) => (s1, some e)
      | (s1, Option.none) =>
        let subs := match last_item with
          | Value.list l => l
          | other => [other]
        let cur2 := getCurrentStack s1
        let lins := if len_items == 1 then next_same_line || cur2.contents_same_line
                    else csl
        match writeSubs fuel subs 0 subs.length cur2.indent_level csl tsl lins it ic s1 with
        | (s2, some e) => (s2, some e)
        | (s2, Option.none) => writeEnds tag_items.length 0 len_items next_same_line it s2

/-- The sub-item loop of `Writer.write` over the (wrapped) last item:
leading whitespace for each sub-item, the sub-item itself, then the
trailing whitespace (`last_item_next_same_line` only for the final one). -/
def writeSubs (fuel : Nat) (subs : List Value) (i len_last indent_level : Nat)
    (csl tsl lins it ic : Bool) (s : WState) : WState × Option Err :=
  match fuel with
  | 0 => (s, some Err.fuelOut)
  | fuel + 1 =>
    match subs with
    | [] => (s, Option.none)
    | v :: rest =>
      let isT := match v with | Value.tag _ => true | _ => false
      let s1 := write_start_whitespace indent_level isT ic s
      match writeOne fuel v csl tsl it ic s1 with
      | (s2, some e) => (s2, some e)
      | (s2, Option.none) =>
        let s3 := write_end_whitespace (if i + 1 == len_last then lins else csl) s2
        writeSubs fuel rest (i + 1) len_last indent_level csl tsl lins it ic s3

/-- One sub-item of `Writer.write`: `None` writes nothing, a `Tag` writes
its start tag, recursively its truthy contents (a nested `self.write` with
`next_same_line=True`) and its end tag, anything else goes through
`escape` (for a string, `escape` of the string itself). -/
def writeOne (fuel : Nat) (v : Value) (csl tsl it ic : Bool)
    (s : WState) : WState × Option Err :=
  match fuel with
  | 0 => (s, some Err.fuelOut)
  | fuel + 1 =>
    match v with
    | Value.pyNone => (s, Option.none)
    | Value.str txt => (emit s (escape txt), Option.none)
    | Value.list l => (emit s (escape (reprValue (Value.list l))), Option.none)
    | Value.tag t =>
      let s1 := emit s t.start_tag
      match t.contents with
      | some c =>
        if c.truthy then
          match write fuel [c] csl tsl true true it ic s1 with
          | (s2, some e) => (s2, some e)
          | (s2, Option.none) => (emit s2 t.end_tag, Option.none)
        else (emit s1 t.end_tag, Option.none)
      | Option.none => (emit s1 t.end_tag, Option.none)
end

/-- `with writer.context(tag, ...) : body` (`TagWriterContext`): `__enter__`
runs `write_start_tag`, the body runs with its own side effects and
possible exception, `__exit__` always runs `write_end_tag` and returns
`False`, so a body exception propagates unless `write_end_tag` itself
raises (in which case that exception propagates instead, as in Python). -/
def contextRun (tag : Tag) (next_child_same_line contents_same_line indent : Bool)
    (body : WState → WState × Option Err) (s : WState) : WState × Option Err :=
  let s1 := write_start_tag tag next_child_same_line contents_same_line indent s
  match body s1 with
  | (s2, err) =>
    match write_end_tag indent false s2 with
    | (s3, some e2) => (s3, some e2)
    | (s3, Option.none) => (s3, err)

/-- `Writer.only_write_if_successful()`: swap in a fresh buffer as the
sink, run the body; on success append the buffer's full contents to the
original sink, on failure discard the buffer; the `finally` clause
restores the original sink in both cases (other writer state mutated by
the body persists). -/
def only_write_if_successful (body : WState → WState × Option Err)
    (s : WState) : WState × Option Err :=
  match body { s with out := "" } with
  | (s2, Option.none) => ({ s2 with out := s.out ++ s2.out }, Option.none)
  | (s2, some e) => ({ s2 with out := s.out }, some e)

/-! ### Basic state-preservation lemmas -/

theorem emit_stack (s : WState) (t : String) : (emit s t).stack = s.stack := rfl

theorem emit_indent (s : WState) (t : String) : (emit s t).indent = s.indent := rfl

theorem write_start_whitespace_stack (lvl : Nat) (isT ind : Bool) (s : WState) :
    (write_start_whitespace lvl isT ind s).stack = s.stack := by
  unfold write_start_whitespace
  split
  · rfl
  · split
    · rfl
    · rfl

theorem write_end_whitespace_stack (sameLine : Bool) (s : WState) :
    (write_end_whitespace sameLine s).stack = s.stack := by
  unfold write_end_whitespace
  split
  · rfl
  · rfl

/-- The frame pushed by `write_start_tag`, as a function of the previous
top frame. -/
def pushedFrame (tag : Tag) (next_child_same_line contents_same_line indent : Bool)
    (prev : Frame) : Frame :=
  { tag := some tag,
    indent_level := if indent && !next_child_same_line then prev.indent_level + 1
                    else prev.indent_level,
    contents_same_line := prev.contents_same_line || contents_same_line,
    next_child_same_line := next_child_same_line }

theorem write_start_tag_stack (tag : Tag) (ncsl csl ind : Bool) (s : WState) :
    (write_start_tag tag ncsl csl ind s).stack
      = pushedFrame tag ncsl csl ind (getCurrentStack s) :: s.stack := by
  unfold write_start_tag
  simp only [write_end_whitespace_stack, emit_stack, write_start_whitespace_stack]
  rfl

/-- Behavior of a successful `write_end_tag`: no fault, the top frame is
popped, and the sink grows by leading whitespace, the popped tag's end tag
and an optional newline — nothing else. -/
theorem write_end_tag_spec (ind nsl : Bool) (u : WState) (f : Frame)
    (rest : List Frame) (t : Tag)
    (hstack : u.stack = f :: rest) (htag : f.tag = some t) :
    (write_end_tag ind nsl u).2 = Option.none ∧
    (write_end_tag ind nsl u).1.stack = rest ∧
    ∃ lvl post, (post = "" ∨ post = "\n") ∧
      (write_end_tag ind nsl u).1.out
        = u.out ++ (strRepeat u.indent lvl ++ (t.end_tag ++ post)) := by
  obtain ⟨o, stk, indstr, cw, lw⟩ := u
  simp only at hstack
  subst hstack
  simp only [write_end_tag, htag, getCurrentStack]
  unfold write_start_whitespace write_end_whitespace emit
  simp only
  by_cases hcw : cw
  · subst hcw
    by_cases hsl : (nsl || (List.headD rest root_stack).contents_same_line
        || (List.headD rest root_stack).next_child_same_line) = true
    · simp only [hsl]
      refine ⟨trivial, rfl, 0, "", Or.inl rfl, ?_⟩
      simp [strRepeat, String.append_empty, String.empty_append]
    · simp only [Bool.not_eq_true] at hsl
      simp only [hsl]
      refine ⟨trivial, rfl, 0, "\n", Or.inr rfl, ?_⟩
      simp [strRepeat, String.append_assoc, String.empty_append]
  · simp only [Bool.not_eq_true] at hcw
    subst hcw
    by_cases hsl : (nsl || (List.headD rest root_stack).contents_same_line
        || (List.headD rest root_stack).next_child_same_line) = true
    · simp only [hsl]
      refine ⟨trivial, rfl, (if ind then (List.headD rest root_stack).indent_level else 0),
        "", Or.inl rfl, ?_⟩
      simp [String.append_empty, String.append_assoc]
    · simp only [Bool.not_eq_true] at hsl
      simp only [hsl]
      refine ⟨trivial, rfl, (if ind then (List.headD rest root_stack).indent_level else 0),
        "\n", Or.inr rfl, ?_⟩
      simp [String.append_assoc]

def divTag : Tag := mkTag "div" Option.none [] (ClassVal.seq []) []

/-- Claim C3 (amended): `TagWriterContext.__exit__` runs `write_end_tag`
exactly once and returns `False` on every exit path, so for every non-void
tag opened through the writer's scoped helper (`Writer.context`), if the
body of the scope raises *and leaves the stack as the scope's push left
it* (it did not abandon a `write` with frames still open), then the
matching end tag is written exactly once (the sink grows by leading
whitespace, the end tag and an optional newline only), the frame is
popped (the stack is restored), and the body's exception propagates
unsuppressed.  Without the balance condition the guarantee fails: see the
counterexample, where `__exit__` pops an inner abandoned frame instead. -/
theorem c3_context_end_tag_on_error (tag : Tag) (ncsl csl ind : Bool)
    (body : WState → WState × Option Err) (s s2 : WState) (e : Err)
    (hnv : voidTags.contains tag.tag_name = false)
    (hbody : body (write_start_tag tag ncsl csl ind s) = (s2, some e))
    (hbal : s2.stack = (write_start_tag tag ncsl csl ind s).stack) :
    (contextRun tag ncsl csl ind body s).2 = some e ∧
    (contextRun tag ncsl csl ind body s).1.stack = s.stack ∧
    ∃ lvl post, (post = "" ∨ post = "\n") ∧
      (contextRun tag ncsl csl ind body s).1.out
        = s2.out ++ (strRepeat s2.indent lvl ++ (tagEndStr tag.tag_name ++ post)) := by
  have hstk2 : s2.stack = pushedFrame tag ncsl csl ind (getCurrentStack s) :: s.stack := by
    rw [hbal, write_start_tag_stack]
  have hft : (pushedFrame tag ncsl csl ind (getCurrentStack s)).tag = some tag := rfl
  obtain ⟨h1, h2, lvl, post, hp, hout⟩ := write_end_tag_spec ind false s2 _ _ tag hstk2 hft
  rcases hw : write_end_tag ind false s2 with ⟨s3, e3⟩
  rw [hw] at h1 h2 hout
  dsimp only at h1 h2 hout
  subst h1
  simp only [contextRun, hbody, hw]
  refine ⟨trivial, h2, lvl, post, hp, ?_⟩
  rw [hout]
  simp only [Tag.end_tag, hnv]
  simp

theorem c3_witness :
    (contextRun divTag false false true
      (fun st => (emit st "boom", some Err.valueError)) freshWriter).2
        = some Err.valueError ∧
    (contextRun divTag false false true
      (fun st => (emit st "boom", some Err.valueError)) freshWriter).1.stack
        = freshWriter.stack ∧
    ∃ lvl post, (post = "" ∨ post = "\n") ∧
      (contextRun divTag false false true
        (fun st => (emit st "boom", some Err.valueError)) freshWriter).1.out
          = (emit (write_start_tag divTag false false true freshWriter) "boom").out
            ++ (strRepeat (emit (write_start_tag divTag false false true freshWriter) "boom").indent lvl
                ++ (tagEndStr divTag.tag_name ++ post)) :=
  c3_context_end_tag_on_error divTag false false true
    (fun st => (emit st "boom", some Err.valueError)) freshWriter
    (emit (write_start_tag divTag false false true freshWriter) "boom")
    Err.valueError rfl rfl rfl

/-- Claim C3 is false as stated: a body whose exception comes from an
abandoned write leaves extra frames, and `__exit__` then pops the wrong
frame.  Opening `section` through the scoped helper and running
`write(Tag("div"), "x", "y")` as the body — which opens `div` and then
raises `ValueError` on the non-final string — ends with the sink holding
`<section>\n  <div></div>\n`: `__exit__` popped the `div` frame and wrote
`</div>`, `</section>` was never written, and the `section` frame is
still open (one frame on the stack, versus none before the call) while
the exception propagates. -/
theorem c3_counterexample :
    (contextRun (mkTag "section" Option.none [] (ClassVal.seq []) []) false false true
      (fun st => write 20 [Value.tag divTag, Value.str "x", Value.str "y"]
        true true false true true true st) freshWriter).1.out
      = "<section>\n  <div></div>\n" ∧
    (contextRun (mkTag "section" Option.none [] (ClassVal.seq []) []) false false true
      (fun st => write 20 [Value.tag divTag, Value.str "x", Value.str "y"]
        true true false true true true st) freshWriter).1.stack.length = 1 ∧
    freshWriter.stack.length = 0 ∧
    (contextRun (mkTag "section" Option.none [] (ClassVal.seq []) []) false false true
      (fun st => write 20 [Value.tag divTag, Value.str "x", Value.str "y"]
        true true false true true true st) freshWriter).2 = some Err.valueError :=
  ⟨rfl, rfl, rfl, rfl⟩

/-- Claim C4: `Writer.only_write_if_successful` appends exactly the full
buffered contents to the original sink when the wrapped block succeeds,
and leaves the original sink byte-identical to its pre-block state while
propagating the error when the block fails; in both cases the original
sink is restored as the writer's sink. -/
theorem c4_only_write_if_successful (body : WState → WState × Option Err) (s : WState) :
    (∀ s2, body { s with out := "" } = (s2, Option.none) →
      only_write_if_successful body s
        = ({ s2 with out := s.out ++ s2.out }, Option.none)) ∧
    (∀ s2 e, body { s with out := "" } = (s2, some e) →
      only_write_if_successful body s = ({ s2 with out := s.out }, some e)) := by
  constructor
  · intro s2 h
    simp only [only_write_if_successful, h]
  · intro s2 e h
    simp only [only_write_if_successful, h]

theorem c4_witness :
    only_write_if_successful (fun st => (emit st "A", Option.none))
        { freshWriter with out := "pre" }
      = ({ emit { { freshWriter with out := "pre" } with out := "" } "A" with
           out := { freshWriter with out := "pre" }.out
             ++ (emit { { freshWriter with out := "pre" } with out := "" } "A").out },
         Option.none) ∧
    only_write_if_successful (fun st => (emit st "B", some Err.valueError))
        { freshWriter with out := "pre" }
      = ({ emit { { freshWriter with out := "pre" } with out := "" } "B" with
           out := { freshWriter with out := "pre" }.out },
         some Err.valueError) :=
  ⟨(c4_only_write_if_successful (fun st => (emit st "A", Option.none))
      { freshWriter with out := "pre" }).1 _ rfl,
   (c4_only_write_if_successful (fun st => (emit st "B", some Err.valueError))
      { freshWriter with out := "pre" }).2 _ Err.valueError rfl⟩

/-- Claim C5: on a fresh writer with the default two-space indent unit,
writing a `div` opener with the content sequence `["Hello", "world"]` and
`contents_same_line=False` succeeds and produces exactly
`<div>\n  Hello\n  world\n</div>\n`. -/
theorem c5_indentation :
    (write 20 [Value.tag divTag, Value.list [Value.str "Hello", Value.str "world"]]
       false true false true true true freshWriter).1.out
      = "<div>\n  Hello\n  world\n</div>\n" ∧
    (write 20 [Value.tag divTag, Value.list [Value.str "Hello", Value.str "world"]]
       false true false true true true freshWriter).2 = Option.none :=
  ⟨rfl, rfl⟩

/-- Claim C6: the contents-same-line flag is sticky — the frame pushed by
`write_start_tag` has `contents_same_line` equal to the OR of the parent
frame's flag and the value requested for this push (so once an ancestor's
flag is true, every descendant frame's flag is true regardless of its own
request). -/
theorem c6_sticky_contents_same_line (tag : Tag) (ncsl csl ind : Bool) (s : WState) :
    (getCurrentStack (write_start_tag tag ncsl csl ind s)).contents_same_line
      = ((getCurrentStack s).contents_same_line || csl) := by
  simp [getCurrentStack, write_start_tag_stack, pushedFrame]

/-- Claim C7: for every tag whose name is in the void-tag table the end
tag is the empty string and the empty tag equals the start tag; for every
other name the end tag is `</name>` and the empty tag is the start tag
concatenated with the end tag (no self-closing syntax). -/
theorem c7_void_empty_tags (t : Tag) :
    (voidTags.contains t.tag_name = true →
      t.end_tag = "" ∧ t.empty_tag = t.start_tag) ∧
    (voidTags.contains t.tag_name = false →
      t.end_tag = tagEndStr t.tag_name ∧
      t.empty_tag = t.start_tag ++ t.end_tag) := by
  constructor
  · intro h
    simp only [Tag.end_tag, Tag.empty_tag, h]
    simp
  · intro h
    simp only [Tag.end_tag, Tag.empty_tag, h]
    simp

theorem c7_witness :
    ((mkTag "br" Option.none [] (ClassVal.seq []) []).end_tag = "" ∧
     (mkTag "br" Option.none [] (ClassVal.seq []) []).empty_tag
       = (mkTag "br" Option.none [] (ClassVal.seq []) []).start_tag) ∧
    ((mkTag "div" Option.none [] (ClassVal.seq []) []).end_tag
       = tagEndStr (mkTag "div" Option.none [] (ClassVal.seq []) []).tag_name ∧
     (mkTag "div" Option.none [] (ClassVal.seq []) []).empty_tag
       = (mkTag "div" Option.none [] (ClassVal.seq []) []).start_tag
         ++ (mkTag "div" Option.none [] (ClassVal.seq []) []).end_tag) :=
  ⟨(c7_void_empty_tags _).1 rfl, (c7_void_empty_tags _).2 rfl⟩

/-- Claim C8: every plain-text fragment written by `Writer.write` is
emitted through the escaping primitive (the string case of the sub-item
loop emits exactly `escape txt`), and writing `Hello <world>` on a fresh
writer puts `Hello &lt;world&gt;` on the sink with no raw angle brackets
from that text. -/
theorem c8_escaping :
    (∀ (fuel : Nat) (txt : String) (csl tsl it ic : Bool) (s : WState),
      writeOne (fuel + 1) (Value.str txt) csl tsl it ic s
        = (emit s (escape txt), Option.none)) ∧
    (write 3 [Value.str "Hello <world>"] true true false true true true freshWriter).1.out
      = "Hello &lt;world&gt;\n" :=
  ⟨fun _ _ _ _ _ _ _ => rfl, rfl⟩

/-- Claim C9: calling `Writer.write_end_tag` when no element is open (the
deque is empty, so only the root frame exists) raises the stack-underflow
fault (`IndexError` from `deque.pop`) before anything is written: the
state is returned unchanged and the error propagates. -/
theorem c9_underflow (ind nsl : Bool) (s : WState) (h : s.stack = []) :
    write_end_tag ind nsl s = (s, some Err.indexError) := by
  obtain ⟨o, stk, i, c, l⟩ := s
  simp only at h
  subst h
  rfl

theorem c9_witness :
    write_end_tag true false freshWriter = (freshWriter, some Err.indexError) :=
  c9_underflow true false freshWriter rfl

/-! ### Ordering facts about the attribute sort (C2) -/

theorem charListLt_asymm : ∀ a b : List Char,
    charListLt a b = true → charListLt b a = false := by
  intro a
  induction a with
  | nil =>
    intro b h
    cases b with
    | nil => simp [charListLt] at h
    | cons y ys => rfl
  | cons x xs IH =>
    intro b h
    cases b with
    | nil => simp [charListLt] at h
    | cons y ys =>
      simp only [charListLt] at h ⊢
      by_cases h1 : x.toNat < y.toNat
      · have h2 : ¬ y.toNat < x.toNat := by omega
        simp [h1, h2]
      · by_cases h2 : y.toNat < x.toNat
        · simp [h1, h2] at h
        · simp only [h1, h2, if_false] at h ⊢
          exact IH ys h

theorem charListLt_le_trans : ∀ a b c : List Char,
    charListLt b a = false → charListLt c b = false → charListLt c a = false := by
  intro a
  induction a with
  | nil =>
    intro b c h1 h2
    cases c with
    | nil => rfl
    | cons z zs => rfl
  | cons x xs IH =>
    intro b c h1 h2
    cases b with
    | nil => simp [charListLt] at h1
    | cons y ys =>
      cases c with
      | nil => simp [charListLt] at h2
      | cons z zs =>
        simp only [charListLt] at h1 h2 ⊢
        by_cases hyx : y.toNat < x.toNat
        · simp [hyx] at h1
        · by_cases hzy : z.toNat < y.toNat
          · simp [hzy] at h2
          · by_cases hzx : z.toNat < x.toNat
            · omega
            · by_cases hxz : x.toNat < z.toNat
              · simp [hzx, hxz]
              · simp only [hzx, hxz, if_false]
                have hxy : ¬ x.toNat < y.toNat := by omega
                have hyz : ¬ y.toNat < z.toNat := by omega
                simp only [hyx, hxy, if_false] at h1
                simp only [hzy, hyz, if_false] at h2
                exact IH ys zs h1 h2

/-- The relation "renders no later than": the second key is not
Python-smaller than the first. -/
def attrLe (a b : String × AttrVal) : Prop := strLt b.1 a.1 = false

theorem mem_insertAttr : ∀ (l : List (String × AttrVal)) (p x : String × AttrVal),
    x ∈ insertAttr p l → x = p ∨ x ∈ l := by
  intro l
  induction l with
  | nil =>
    intro p x h
    simp [insertAttr] at h
    exact Or.inl h
  | cons q rest IH =>
    intro p x h
    simp only [insertAttr] at h
    by_cases hc : strLt p.1 q.1 = true
    · rw [if_pos hc] at h
      rcases List.mem_cons.mp h with h | h
      · exact Or.inl h
      · exact Or.inr h
    · rw [if_neg hc] at h
      rcases List.mem_cons.mp h with h | h
      · exact Or.inr (by rw [h]; exact List.mem_cons_self q rest)
      · rcases IH p x h with h' | h'
        · exact Or.inl h'
        · exact Or.inr (List.mem_cons_of_mem q h')

theorem pairwise_insertAttr : ∀ (l : List (String × AttrVal)) (p : String × AttrVal),
    l.Pairwise attrLe → (insertAttr p l).Pairwise attrLe := by
  intro l
  induction l with
  | nil =>
    intro p _
    simp [insertAttr]
  | cons q rest IH =>
    intro p h
    rw [List.pairwise_cons] at h
    obtain ⟨hq, hrest⟩ := h
    simp only [insertAttr]
    by_cases hc : strLt p.1 q.1 = true
    · rw [if_pos hc]
      rw [List.pairwise_cons]
      constructor
      · intro x hx
        rcases List.mem_cons.mp hx with hx | hx
        · rw [hx]
          exact charListLt_asymm _ _ hc
        · have hqx := hq x hx
          exact charListLt_le_trans p.1.data q.1.data x.1.data
            (charListLt_asymm _ _ hc) hqx
      · rw [List.pairwise_cons]
        exact ⟨hq, hrest⟩
    · rw [if_neg hc]
      rw [List.pairwise_cons]
      constructor
      · intro x hx
        rcases mem_insertAttr rest p x hx with hx | hx
        · rw [hx]
          exact Bool.not_eq_true _ |>.mp hc
        · exact hq x hx
      · exact IH p hrest

theorem sortAttrs_pairwise : ∀ l : List (String × AttrVal),
    (sortAttrs l).Pairwise attrLe := by
  intro l
  induction l with
  | nil => simp [sortAttrs]
  | cons p rest IH => exact pairwise_insertAttr (sortAttrs rest) p IH

/-- Claim C2 (amended): the non-style keyword attributes appear in the
start tag in ascending order of their original keyword names, not of
their normalized names — `Tag.__init__` stores `sortAttrs args` (sorted
by the original keys, `attrLe`-pairwise) and the start tag is rendered
from that stored order; normalization is applied after sorting. -/
theorem c2_sorted_by_original_name (n : String) (c : Option Value)
    (st : List (String × String)) (cl : ClassVal)
    (args : List (String × AttrVal)) :
    (mkTag n c st cl args).args = sortAttrs args ∧
    (mkTag n c st cl args).start_tag = startTagStr n st cl (sortAttrs args) ∧
    List.Pairwise attrLe (sortAttrs args) :=
  ⟨rfl, rfl, sortAttrs_pairwise args⟩

/-- Claim C2 is false as stated: with keyword attributes `a1` and `a_b`,
the rendered start tag is `<div a1="x" a-b="y">` — `a1` comes first —
although the normalized name `a-b` of `a_b` is lexicographically smaller
than `a1` (the original names sort the other way: `a1 < a_b`). -/
theorem c2_counterexample :
    (mkTag "div" Option.none [] (ClassVal.seq [])
      [("a1", AttrVal.s "x"), ("a_b", AttrVal.s "y")]).start_tag
      = "<div a1=\"x\" a-b=\"y\">" ∧
    strLt (optimize_attr_name "a_b") (optimize_attr_name "a1") = true ∧
    strLt "a1" "a_b" = true :=
  ⟨rfl, rfl, rfl⟩

/-- Front-loop behavior on a malformed argument list: the loop opens the
valid leading `Tag` items and raises `ValueError` when it reaches the
first offending item, leaving exactly the state produced by the valid
prefix. -/
theorem writeTags_split_err : ∀ (good : List Value) (bad : Value) (rest : List Value)
    (i len : Nat) (csl tsl it : Bool) (s : WState),
    (∀ v ∈ good, ∃ t, v = Value.tag t ∧ t.contents = Option.none) →
    ((∀ t, bad ≠ Value.tag t) ∨ ∃ t, bad = Value.tag t ∧ t.contents ≠ Option.none) →
    writeTags (good ++ bad :: rest) i len csl tsl it s
      = ((writeTags good i len csl tsl it s).1, some Err.valueError) := by
  intro good
  induction good with
  | nil =>
    intro bad rest i len csl tsl it s hgood hbad
    simp only [List.nil_append]
    cases bad with
    | str t => rfl
    | pyNone => rfl
    | list l => rfl
    | tag t =>
      rcases hbad with hbad | ⟨t', heq, hc⟩
      · exact absurd rfl (hbad t)
      · cases heq
        rcases hctt : t.contents with _ | cv
        · exact absurd hctt hc
        · simp only [writeTags, hctt]
  | cons g gs IH =>
    intro bad rest i len csl tsl it s hgood hbad
    obtain ⟨t, rfl, hcont⟩ := hgood g (List.mem_cons_self g gs)
    simp only [List.cons_append, writeTags, hcont]
    exact IH bad rest (i + 1) len csl tsl it _
      (fun v hv => hgood v (List.mem_cons_of_mem _ hv)) hbad

/-- Claim C1 (amended): a malformed `Writer.write` call (some non-final
item not a `Tag`, or a non-final `Tag` carrying contents) raises
`ValueError` when the loop reaches the first offending item, before that
item or anything after it is written; the output produced by the call is
exactly the start tags of the valid openers preceding the offending item
(in particular, nothing when the offending item comes first). -/
theorem c1_invalid_argument (fuel : Nat) (items : List Value)
    (csl tsl nsl ind it ic : Bool) (s : WState)
    (good : List Value) (bad : Value) (rest : List Value)
    (hsplit : items.dropLast = good ++ bad :: rest)
    (hgood : ∀ v ∈ good, ∃ t, v = Value.tag t ∧ t.contents = Option.none)
    (hbad : (∀ t, bad ≠ Value.tag t) ∨ ∃ t, bad = Value.tag t ∧ t.contents ≠ Option.none) :
    write (fuel + 1) items csl tsl nsl ind it ic s
      = ((writeTags good 0 items.length
            (csl || (getCurrentStack s).contents_same_line)
            (tsl || (getCurrentStack s).contents_same_line)
            (it && ind) s).1,
         some Err.valueError) := by
  cases items with
  | nil => simp at hsplit
  | cons first restI =>
    simp only [write]
    rw [hsplit, writeTags_split_err good bad rest 0 (first :: restI).length
      (csl || (getCurrentStack s).contents_same_line)
      (tsl || (getCurrentStack s).contents_same_line)
      (it && ind) s hgood hbad]

/-- Witness for the amended claim C1 at a concrete malformed call. -/
theorem c1_invalid_argument_witness :
    write 10 [Value.tag divTag, Value.str "x", Value.str "y"]
        true true false true true true freshWriter
      = ((writeTags [Value.tag divTag] 0
            ([Value.tag divTag, Value.str "x", Value.str "y"]).length
            (true || (getCurrentStack freshWriter).contents_same_line)
            (true || (getCurrentStack freshWriter).contents_same_line)
            (true && true) freshWriter).1,
         some Err.valueError) :=
  c1_invalid_argument 9 [Value.tag divTag, Value.str "x", Value.str "y"]
    true true false true true true freshWriter
    [Value.tag divTag] (Value.str "x") [] rfl
    (by
      intro v hv
      rw [List.mem_singleton] at hv
      subst hv
      exact ⟨divTag, rfl, rfl⟩)
    (Or.inl (fun t h => Value.noConfusion h))

/-- Claim C1 is false as stated: `write(Tag("div"), "x", "y")` raises
`ValueError` (the second item is a non-final non-`Tag`), yet `<div>` has
already been written to the sink, so partial output is produced. -/
theorem c1_counterexample :
    (write 20 [Value.tag divTag, Value.str "x", Value.str "y"]
       true true false true true true freshWriter).2 = some Err.valueError ∧
    (write 20 [Value.tag divTag, Value.str "x", Value.str "y"]
       true true false true true true freshWriter).1.out = "<div>" ∧
    "<div>" ≠ freshWriter.out :=
  ⟨rfl, rfl, by decide⟩

/-! ### Stack-balance lemmas (C10) -/

theorem write_end_tag_pop (ind nsl : Bool) (s s1 : WState)
    (h : write_end_tag ind nsl s = (s1, Option.none)) :
    ∃ f, s.stack = f :: s1.stack := by
  obtain ⟨o, stk, i, c, l⟩ := s
  cases stk with
  | nil => simp [write_end_tag] at h
  | cons f rest =>
    refine ⟨f, ?_⟩
    simp only [write_end_tag] at h
    rcases hft : f.tag with _ | t
    · rw [hft] at h
      simp at h
    · rw [hft] at h
      simp only [Prod.mk.injEq] at h
      rw [← h.1]
      simp [write_end_whitespace_stack, emit_stack, write_start_whitespace_stack]

theorem writeTags_stack_of_ok : ∀ (l : List Value) (i len : Nat) (csl tsl it : Bool)
    (s s' : WState),
    writeTags l i len csl tsl it s = (s', Option.none) →
    ∃ fs, s'.stack = fs ++ s.stack ∧ fs.length = l.length := by
  intro l
  induction l with
  | nil =>
    intro i len csl tsl it s s' h
    simp only [writeTags, Prod.mk.injEq] at h
    exact ⟨[], by rw [← h.1]; simp, rfl⟩
  | cons v rest IH =>
    intro i len csl tsl it s s' h
    cases v with
    | str t => simp [writeTags] at h
    | pyNone => simp [writeTags] at h
    | list l2 => simp [writeTags] at h
    | tag t =>
      simp only [writeTags] at h
      rcases hct : t.contents with _ | cv
      · rw [hct] at h
        obtain ⟨fs, hfs, hlen⟩ := IH _ _ _ _ _ _ _ h
        refine ⟨fs ++ [pushedFrame t (if i + 2 == len then csl else tsl) false it
          (getCurrentStack s)], ?_, ?_⟩
        · rw [hfs, write_start_tag_stack]
          simp
        · simp [hlen]
      · rw [hct] at h
        simp at h

theorem writeEnds_stack_of_ok : ∀ (k i len : Nat) (nsl it : Bool) (s s' : WState),
    writeEnds k i len nsl it s = (s', Option.none) →
    ∃ dropped, s.stack = dropped ++ s'.stack ∧ dropped.length = k := by
  intro k
  induction k with
  | zero =>
    intro i len nsl it s s' h
    simp only [writeEnds, Prod.mk.injEq] at h
    exact ⟨[], by rw [h.1]; simp, rfl⟩
  | succ k IH =>
    intro i len nsl it s s' h
    simp only [writeEnds] at h
    split at h
    · simp at h
    · rename_i s1 hwe
      obtain ⟨f, hf⟩ := write_end_tag_pop _ _ _ _ hwe
      obtain ⟨dr, hdr, hdlen⟩ := IH _ _ _ _ _ _ h
      exact ⟨f :: dr, by rw [hf, hdr]; rfl, by simp [hdlen]⟩

/-- Joint stack-balance statement for the three mutually recursive loops of
`Writer.write`, by induction on the fuel. -/
theorem balanced_parts : ∀ fuel : Nat,
    (∀ items csl tsl nsl ind it ic s s',
      write fuel items csl tsl nsl ind it ic s = (s', Option.none) →
      s'.stack = s.stack) ∧
    (∀ subs i ll il csl tsl lins it ic s s',
      writeSubs fuel subs i ll il csl tsl lins it ic s = (s', Option.none) →
      s'.stack = s.stack) ∧
    (∀ v csl tsl it ic s s',
      writeOne fuel v csl tsl it ic s = (s', Option.none) →
      s'.stack = s.stack) := by
  intro fuel
  induction fuel with
  | zero =>
    refine ⟨?_, ?_, ?_⟩
    · intro items csl tsl nsl ind it ic s s' h
      simp [write] at h
    · intro subs i ll il csl tsl lins it ic s s' h
      simp [writeSubs] at h
    · intro v csl tsl it ic s s' h
      simp [writeOne] at h
  | succ fuel IH =>
    obtain ⟨IHw, IHs, IHo⟩ := IH
    refine ⟨?_, ?_, ?_⟩
    · -- write (fuel + 1)
      intro items csl tsl nsl ind it ic s s' h
      cases items with
      | nil => simp [write] at h
      | cons first restI =>
        simp only [write] at h
        split at h
        · simp at h
        · rename_i s1 hwt
          split at h
          · simp at h
          · rename_i s2 hws
            obtain ⟨fs, hfs, hflen⟩ := writeTags_stack_of_ok _ _ _ _ _ _ _ _ hwt
            have hsub := IHs _ _ _ _ _ _ _ _ _ _ _ hws
            obtain ⟨dropped, hdrop, hdlen⟩ := writeEnds_stack_of_ok _ _ _ _ _ _ _ h
            have hcomb : fs ++ s.stack = dropped ++ s'.stack := by
              rw [← hfs, ← hsub, hdrop]
            have hl : fs.length = dropped.length := by rw [hflen, hdlen]
            exact ((List.append_inj hcomb hl).2).symm
    · -- writeSubs (fuel + 1)
      intro subs i ll il csl tsl lins it ic s s' h
      cases subs with
      | nil =>
        simp only [writeSubs, Prod.mk.injEq] at h
        rw [← h.1]
      | cons v rest =>
        simp only [writeSubs] at h
        split at h
        · simp at h
        · rename_i s2 hwo
          have h1 := IHo _ _ _ _ _ _ _ hwo
          have h2 := IHs _ _ _ _ _ _ _ _ _ _ _ h
          rw [h2, write_end_whitespace_stack, h1, write_start_whitespace_stack]
    · -- writeOne (fuel + 1)
      intro v csl tsl it ic s s' h
      cases v with
      | pyNone =>
        simp only [writeOne, Prod.mk.injEq] at h
        rw [← h.1]
      | str txt =>
        simp only [writeOne, Prod.mk.injEq] at h
        rw [← h.1]
        rfl
      | list l =>
        simp only [writeOne, Prod.mk.injEq] at h
        rw [← h.1]
        rfl
      | tag t =>
        simp only [writeOne] at h
        split at h
        · -- contents = some c
          rename_i c hc
          split at h
          · -- truthy: nested write
            split at h
            · simp at h
            · rename_i s2 hw
              have h1 := IHw _ _ _ _ _ _ _ _ _ hw
              simp only [Prod.mk.injEq] at h
              rw [← h.1]
              exact h1
          · -- not truthy
            simp only [Prod.mk.injEq] at h
            rw [← h.1]
            rfl
        · -- contents = none
          simp only [Prod.mk.injEq] at h
          rw [← h.1]
          rfl

def spanTag : Tag := mkTag "span" Option.none [] (ClassVal.seq []) []

/-- Claim C10: every call to `Writer.write` that returns without raising
leaves the frame stack exactly as it was before the call — each start tag
pushed for a chained opener (and every push inside nested contents) is
matched by exactly one pop before the call returns. -/
theorem c10_write_balanced (fuel : Nat) (items : List Value)
    (csl tsl nsl ind it ic : Bool) (s s' : WState)
    (h : write fuel items csl tsl nsl ind it ic s = (s', Option.none)) :
    s'.stack = s.stack :=
  (balanced_parts fuel).1 items csl tsl nsl ind it ic s s' h

theorem c10_write_balanced_witness :
    ((write 20 [Value.tag divTag, Value.tag spanTag, Value.str "hi"]
        true true false true true true freshWriter).1).stack = freshWriter.stack := by
  have h2 : (write 20 [Value.tag divTag, Value.tag spanTag, Value.str "hi"]
      true true false true true true freshWriter).2 = Option.none := rfl
  exact c10_write_balanced 20 [Value.tag divTag, Value.tag spanTag, Value.str "hi"]
    true true false true true true freshWriter
    (write 20 [Value.tag divTag, Value.tag spanTag, Value.str "hi"]
      true true false true true true freshWriter).1
    (by rw [← h2])
